import Mathlib

/-!
Verification of the HDF5 image extractor (`src/extractor.py`).

The development shallowly embeds the extractor's logic:

* An HDF5 node tree is an inductive `Node`: a `group` of children or an
  `array` leaf.  An array leaf carries its shape (list of dimension sizes),
  an element-type tag (`dtype`, modelling the numpy dtype), a `data` token
  standing for the buffer contents, and a `readable` flag modelling whether
  `child.read()` succeeds (per-node content-read failure is the failure mode
  handled in `_recursive_extract_arrays`; shape metadata access is modelled
  as infallible, matching the fact that the counting pass never calls
  `read()`).
* `recursiveCountArrays` / `countChildren` embed
  `H5ImageExtractor._recursive_count_arrays`.
* `extractChildren` / `recursiveExtractArrays` embed
  `H5ImageExtractor._recursive_extract_arrays`; `extractTraceChildren` is the
  same function instrumented with a ghost log of every array on which
  `read()` is attempted (successful or not).
* `scan_file` and `extract_images` embed the public methods; the numpy
  stacking step `np.array(images)` is modelled by `npStackShape` /
  `assembleResult` following numpy's documented behaviour: stacking a list
  of arrays succeeds exactly when all shapes coincide (element types are
  promoted to a common type and play no role in success), a ragged list
  raises `ValueError`, and the `dtype=object` fallback keeps the list as a
  length-preserving heterogeneous sequence.
-/

/-- The value obtained by reading an array dataset: its shape, its element
type tag and a token for the buffer contents (models a numpy `ndarray`). -/
structure Img where
  shape : List Nat
  dtype : Nat
  data : Nat
deriving DecidableEq, Repr

/-- An HDF5 node as seen through PyTables: a `tables.Group` with children, or
a `tables.Array` leaf with a shape, an element type, contents, and a flag
recording whether `read()` succeeds on it. -/
inductive Node where
  | array (shape : List Nat) (dtype : Nat) (data : Nat) (readable : Bool)
  | group (children : List Node)
deriving Repr

/-- The loop/entry guard of `_recursive_extract_arrays`:
`max_count is not None and len(images) >= max_count`. -/
def atMax (images : List Img) : Option Nat → Bool
  | some m => m ≤ images.length
  | none => false

/-- Embeds the body of `_recursive_count_arrays` (src/extractor.py:82-99):
iterate the children; a `tables.Array` child of rank ≥ 2 increments the
accumulator, a `tables.Group` child is recursed into (recursing into a group
child iterates that child's children, which is inlined here). -/
def countChildren : List Node → Nat → Nat
  | [], count => count
  | .array s _ _ _ :: rest, count =>
      countChildren rest (if 2 ≤ s.length then count + 1 else count)
  | .group cs :: rest, count => countChildren rest (countChildren cs count)

/-- Embeds `_recursive_count_arrays` on an arbitrary node: an array node has
no children to iterate, a group iterates its children. -/
def recursiveCountArrays : Node → Nat → Nat
  | .array _ _ _ _, count => count
  | .group cs, count => countChildren cs count

/-- Embeds the loop of `_recursive_extract_arrays` (src/extractor.py:163-187):
before each child the guard `len(images) >= max_count` breaks; a qualifying
(rank ≥ 2) array child is read and appended when readable, skipped with a
warning when not; a group child is recursed into (inlined as iterating its
children, which re-checks the same guard first, exactly as the source's
entry guard does). -/
def extractChildren : List Node → List Img → Option Nat → List Img
  | [], images, _ => images
  | child :: rest, images, maxCount =>
      if atMax images maxCount then images
      else
        match child with
        | .array s d v r =>
            if 2 ≤ s.length then
              if r then extractChildren rest (images ++ [⟨s, d, v⟩]) maxCount
              else extractChildren rest images maxCount
            else extractChildren rest images maxCount
        | .group cs => extractChildren rest (extractChildren cs images maxCount) maxCount

/-- Embeds `_recursive_extract_arrays` on an arbitrary node, with the entry
guard `if max_count is not None and len(images) >= max_count: return`. -/
def recursiveExtractArrays (node : Node) (images : List Img) (maxCount : Option Nat) : List Img :=
  if atMax images maxCount then images
  else
    match node with
    | .array _ _ _ _ => images
    | .group cs => extractChildren cs images maxCount

/-- Embeds `_extract_from_file` (src/extractor.py:147-161): open the file,
run the recursive extraction from the root with an empty list. -/
def extractFromFile (root : Node) (maxCount : Option Nat) : List Img :=
  recursiveExtractArrays root [] maxCount

/-- `extractChildren` instrumented with a ghost log (second component)
recording every array dataset on which `read()` is attempted — both the
successful reads (appended to `images`) and the failed ones (warned and
skipped).  The control flow is identical to `extractChildren`. -/
def extractTraceChildren : List Node → List Img × List Img → Option Nat → List Img × List Img
  | [], st, _ => st
  | child :: rest, (images, log), maxCount =>
      if atMax images maxCount then (images, log)
      else
        match child with
        | .array s d v r =>
            if 2 ≤ s.length then
              if r then
                extractTraceChildren rest (images ++ [⟨s, d, v⟩], log ++ [⟨s, d, v⟩]) maxCount
              else extractTraceChildren rest (images, log ++ [⟨s, d, v⟩]) maxCount
            else extractTraceChildren rest (images, log) maxCount
        | .group cs =>
            extractTraceChildren rest (extractTraceChildren cs (images, log) maxCount) maxCount

/-- The error kinds raised by `extract_images`:
`invalidState` = "No images found in file. Run scan_file() first.",
`outOfRange` = "Requested ... but only ... available",
`invalidArgument` = "Number of images must be positive". -/
inductive ExtractError where
  | invalidState
  | outOfRange
  | invalidArgument
deriving DecidableEq, Repr

/-- The result of `extract_images`: either one uniformly stacked ndarray
(with its shape) or a heterogeneous object array of the individual images. -/
inductive StackResult where
  | uniform (shape : List Nat) (images : List Img)
  | hetero (images : List Img)
deriving DecidableEq, Repr

/-- The list of images held by a `StackResult`. -/
def StackResult.imagesOf : StackResult → List Img
  | .uniform _ is => is
  | .hetero is => is

/-- Models `np.array(images)` for a list of ndarrays (external numpy
behaviour): stacking succeeds exactly when all shapes coincide, yielding
shape `(len images) :: common shape` (element types are promoted, never a
cause of failure); a ragged list raises `ValueError` (`none`); an empty list
yields the empty float array of shape `(0,)`. -/
def npStackShape : List Img → Option (List Nat)
  | [] => some [0]
  | i :: rest =>
      if rest.all fun j => j.shape = i.shape then some ((rest.length + 1) :: i.shape)
      else none

/-- Embeds the assembly step of `extract_images` (src/extractor.py:135-145):
try `np.array(images)`; on `ValueError` warn and fall back to
`np.array(images, dtype=object)`, the length-preserving heterogeneous
sequence. -/
def assembleResult (images : List Img) : StackResult :=
  match npStackShape images with
  | some s => .uniform s images
  | none => .hetero images

/-- The extractor's state: the tree rooted at the bound file (standing for
`file_path` plus the file's contents) and the cached `total_images`. -/
structure Extractor where
  tree : Node
  total_images : Nat

/-- Embeds `H5ImageExtractor.__init__` on a tree standing for an existing
regular file: the cached count starts at 0 (src/extractor.py:45). -/
def initExtractor (t : Node) : Extractor := ⟨t, 0⟩

/-- Embeds `scan_file` (src/extractor.py:47-65): count the qualifying arrays
from the root, cache the count, return it.  (The `except` branch of
`scan_file` handles file-open failures, which this model does not exercise:
counting touches only shape metadata and is total here.) -/
def scan_file (e : Extractor) : Nat × Extractor :=
  let c := recursiveCountArrays e.tree 0
  (c, ⟨e.tree, c⟩)

/-- Embeds `extract_images` (src/extractor.py:101-145), in the source's
check order: cached count zero → `invalidState`; resolve `None` to the
cached total; `n > total` → `outOfRange`; `n ≤ 0` → `invalidArgument`;
otherwise extract up to `n` images and assemble.  The second component is
the extractor state after the call (the method writes no attribute). -/
def extract_images (e : Extractor) (nImages : Option Int) :
    Except ExtractError StackResult × Extractor :=
  if e.total_images = 0 then (.error .invalidState, e)
  else
    let n : Int := nImages.getD (e.total_images : Int)
    if (e.total_images : Int) < n then (.error .outOfRange, e)
    else if n ≤ 0 then (.error .invalidArgument, e)
    else (.ok (assembleResult (extractFromFile e.tree (some n.toNat))), e)

/-- The images delivered by a call result (empty on error). -/
def extractedImages (r : Except ExtractError StackResult) : List Img :=
  match r with
  | .ok res => res.imagesOf
  | .error _ => []

/-- Spec-side: the depth-first list of all qualifying (rank ≥ 2) array
datasets below a list of sibling nodes, readable or not. -/
def qualList : List Node → List Img
  | [] => []
  | .array s d v _ :: rest => (if 2 ≤ s.length then [⟨s, d, v⟩] else []) ++ qualList rest
  | .group cs :: rest => qualList cs ++ qualList rest

/-- Spec-side: the depth-first list of the readable qualifying array
datasets below a list of sibling nodes. -/
def readableQualList : List Node → List Img
  | [] => []
  | .array s d v r :: rest =>
      (if 2 ≤ s.length ∧ r then [⟨s, d, v⟩] else []) ++ readableQualList rest
  | .group cs :: rest => readableQualList cs ++ readableQualList rest

/-- All qualifying array datasets below these siblings are readable. -/
def allQualReadable : List Node → Bool
  | [] => true
  | .array s _ _ r :: rest => (if 2 ≤ s.length then r else true) && allQualReadable rest
  | .group cs :: rest => allQualReadable cs && allQualReadable rest


def scannedExtractor (cs : List Node) : Extractor :=
  (scan_file (initExtractor (.group cs))).2

theorem countChildren_eq (cs : List Node) :
    ∀ c, countChildren cs c = c + (qualList cs).length := by
  induction cs using qualList.induct with
  | case1 => intro c; simp [countChildren, qualList]
  | case2 s d v r rest ih =>
      intro c
      by_cases h : 2 ≤ s.length
      · simp [countChildren, qualList, h, ih]
        omega
      · simp [countChildren, qualList, h, ih]
  | case3 cs2 rest ih1 ih2 =>
      intro c
      simp [countChildren, qualList, ih1, ih2]
      omega

theorem readableQualList_eq (cs : List Node) (h : allQualReadable cs = true) :
    readableQualList cs = qualList cs := by
  induction cs using qualList.induct with
  | case1 => simp [readableQualList, qualList]
  | case2 s d v r rest ih =>
      rw [allQualReadable] at h
      simp only [Bool.and_eq_true] at h
      by_cases hs : 2 ≤ s.length
      · have hr : r = true := by simpa [hs] using h.1
        simp [readableQualList, qualList, hs, hr, ih h.2]
      · simp [readableQualList, qualList, hs, ih h.2]
  | case3 cs2 rest ih1 ih2 =>
      rw [allQualReadable] at h
      simp only [Bool.and_eq_true] at h
      simp [readableQualList, qualList, ih1 h.1, ih2 h.2]

theorem qualList_rank (cs : List Node) : ∀ i ∈ qualList cs, 2 ≤ i.shape.length := by
  induction cs using qualList.induct with
  | case1 => simp [qualList]
  | case2 s d v r rest ih =>
      intro i hi
      by_cases hs : 2 ≤ s.length
      · simp [qualList, hs] at hi
        rcases hi with hi | hi
        · subst hi; simpa using hs
        · exact ih i hi
      · simp [qualList, hs] at hi
        exact ih i hi
  | case3 cs2 rest ih1 ih2 =>
      intro i hi
      simp [qualList] at hi
      rcases hi with hi | hi
      · exact ih1 i hi
      · exact ih2 i hi

theorem extractChildren_none (cs : List Node) : ∀ images,
    extractChildren cs images none = images ++ readableQualList cs := by
  induction cs using readableQualList.induct with
  | case1 => intro images; simp [extractChildren, readableQualList]
  | case2 s d v r rest ih =>
      intro images
      by_cases h : 2 ≤ s.length <;> cases r <;>
        simp [extractChildren, readableQualList, atMax, h, ih]
  | case3 cs2 rest ih1 ih2 =>
      intro images
      simp [extractChildren, readableQualList, atMax, ih1, ih2]

theorem extractChildren_some (cs : List Node) : ∀ images m,
    extractChildren cs images (some m) =
      images ++ (readableQualList cs).take (m - images.length) := by
  induction cs using readableQualList.induct with
  | case1 => intro images m; simp [extractChildren, readableQualList]
  | case2 s d v r rest ih =>
      intro images m
      by_cases hm : m ≤ images.length
      · have hg : atMax images (some m) = true := by simp [atMax, hm]
        have h0 : m - images.length = 0 := by omega
        simp [extractChildren, hg, h0]
      · have hg : atMax images (some m) = false := by
          simp only [atMax, decide_eq_false_iff_not]
          omega
        by_cases h : 2 ≤ s.length
        · cases r
          · simp [extractChildren, hg, h, readableQualList, ih]
          · obtain ⟨k, hk⟩ : ∃ k, m - images.length = k + 1 :=
              ⟨m - images.length - 1, by omega⟩
            have hk' : m - (images.length + 1) = k := by omega
            simp [extractChildren, hg, h, readableQualList, ih, hk, hk', List.take_succ_cons]
        · simp [extractChildren, hg, h, readableQualList, ih]
  | case3 cs2 rest ih1 ih2 =>
      intro images m
      by_cases hm : m ≤ images.length
      · have hg : atMax images (some m) = true := by simp [atMax, hm]
        have h0 : m - images.length = 0 := by omega
        simp [extractChildren, hg, h0]
      · have hg : atMax images (some m) = false := by
          simp only [atMax, decide_eq_false_iff_not]
          omega
        rw [extractChildren.eq_def]
        simp only [hg, Bool.false_eq_true, if_false]
        rw [ih1, ih2, readableQualList]
        rw [List.take_append_eq_append_take]
        have hidx : m - (images ++ (readableQualList cs2).take (m - images.length)).length
            = m - images.length - (readableQualList cs2).length := by
          simp only [List.length_append, List.length_take]
          omega
        rw [hidx, List.append_assoc]

theorem extractTraceChildren_none (cs : List Node) : ∀ images log,
    extractTraceChildren cs (images, log) none =
      (images ++ readableQualList cs, log ++ qualList cs) := by
  induction cs using qualList.induct with
  | case1 => intro images log; simp [extractTraceChildren, readableQualList, qualList]
  | case2 s d v r rest ih =>
      intro images log
      by_cases h : 2 ≤ s.length <;> cases r <;>
        simp [extractTraceChildren, readableQualList, qualList, atMax, h, ih]
  | case3 cs2 rest ih1 ih2 =>
      intro images log
      simp [extractTraceChildren, readableQualList, qualList, atMax, ih1, ih2]

theorem extractTraceChildren_some (cs : List Node) (hread : allQualReadable cs = true) :
    ∀ images log m,
      extractTraceChildren cs (images, log) (some m) =
        (images ++ (qualList cs).take (m - images.length),
         log ++ (qualList cs).take (m - images.length)) := by
  induction cs using qualList.induct with
  | case1 => intro images log m; simp [extractTraceChildren, qualList]
  | case2 s d v r rest ih =>
      rw [allQualReadable] at hread
      simp only [Bool.and_eq_true] at hread
      intro images log m
      by_cases hm : m ≤ images.length
      · have hg : atMax images (some m) = true := by simp [atMax, hm]
        have h0 : m - images.length = 0 := by omega
        simp [extractTraceChildren, hg, h0]
      · have hg : atMax images (some m) = false := by
          simp only [atMax, decide_eq_false_iff_not]
          omega
        by_cases h : 2 ≤ s.length
        · have hr : r = true := by simpa [h] using hread.1
          obtain ⟨k, hk⟩ : ∃ k, m - images.length = k + 1 :=
            ⟨m - images.length - 1, by omega⟩
          have hk' : m - (images.length + 1) = k := by omega
          simp [extractTraceChildren, hg, h, hr, qualList, ih hread.2, hk, hk',
            List.take_succ_cons]
        · simp [extractTraceChildren, hg, h, qualList, ih hread.2]
  | case3 cs2 rest ih1 ih2 =>
      rw [allQualReadable] at hread
      simp only [Bool.and_eq_true] at hread
      intro images log m
      by_cases hm : m ≤ images.length
      · have hg : atMax images (some m) = true := by simp [atMax, hm]
        have h0 : m - images.length = 0 := by omega
        simp [extractTraceChildren, hg, h0]
      · have hg : atMax images (some m) = false := by
          simp only [atMax, decide_eq_false_iff_not]
          omega
        rw [extractTraceChildren.eq_def]
        simp only [hg, Bool.false_eq_true, if_false]
        rw [ih1 hread.1, ih2 hread.2, qualList]
        rw [List.take_append_eq_append_take]
        have hidx : m - (images ++ (qualList cs2).take (m - images.length)).length
            = m - images.length - (qualList cs2).length := by
          simp only [List.length_append, List.length_take]
          omega
        rw [hidx]
        simp [List.append_assoc]

theorem imagesOf_assembleResult (images : List Img) :
    (assembleResult images).imagesOf = images := by
  cases h : npStackShape images <;> simp [assembleResult, h, StackResult.imagesOf]

theorem scannedExtractor_eq (cs : List Node) :
    scannedExtractor cs = ⟨.group cs, (qualList cs).length⟩ := by
  simp [scannedExtractor, scan_file, initExtractor, recursiveCountArrays, countChildren_eq]

theorem extract_images_ok_aux (cs : List Node) (n : Nat) (h1 : 1 ≤ n)
    (h2 : n ≤ (qualList cs).length) :
    (extract_images (scannedExtractor cs) (some (n : Int))).1 =
      .ok (assembleResult ((readableQualList cs).take n)) := by
  rw [scannedExtractor_eq]
  rw [extract_images]
  have hK : (qualList cs).length ≠ 0 := by omega
  simp only [hK, if_false, Option.getD_some]
  have hlt : ¬ ((((qualList cs).length : Nat) : Int) < (n : Int)) := by
    simp only [not_lt]
    exact_mod_cast h2
  have hle : ¬ ((n : Int) ≤ 0) := by
    simp only [not_le]
    exact_mod_cast h1
  simp only [hlt, if_false, hle, Int.toNat_natCast]
  rw [extractFromFile, recursiveExtractArrays]
  have hg : atMax [] (some n) = false := by
    simp only [atMax, List.length_nil, decide_eq_false_iff_not]
    omega
  simp only [hg, Bool.false_eq_true, if_false]
  rw [extractChildren_some]
  simp

theorem extract_images_none_ok_aux (cs : List Node) (hK : 1 ≤ (qualList cs).length) :
    (extract_images (scannedExtractor cs) none).1 =
      .ok (assembleResult ((readableQualList cs).take (qualList cs).length)) := by
  rw [scannedExtractor_eq]
  rw [extract_images]
  have hK0 : (qualList cs).length ≠ 0 := by omega
  simp only [hK0, if_false, Option.getD_none]
  simp only [lt_self_iff_false, if_false]
  have hle : ¬ (((qualList cs).length : Int) ≤ 0) := by
    simp only [not_le]
    exact_mod_cast hK
  simp only [hle, if_false, Int.toNat_natCast]
  rw [extractFromFile, recursiveExtractArrays]
  have hg : atMax [] (some (qualList cs).length) = false := by
    simp only [atMax, List.length_nil, decide_eq_false_iff_not]
    omega
  simp only [hg, Bool.false_eq_true, if_false]
  rw [extractChildren_some]
  simp

/-- A sample file tree: two rank-2 arrays at different nesting depths plus a
rank-1 array that must be ignored (cf. the scenario in the spec, §8). -/
def sampleTree : List Node :=
  [.array [10, 10] 0 0 true,
   .group [.array [10, 10] 0 1 true, .array [5] 0 2 true]]

/-- A sample file tree with three rank-2 arrays of which the second is
unreadable. -/
def sampleTreeU : List Node :=
  [.array [4, 4] 0 0 true,
   .array [4, 4] 0 1 false,
   .group [.array [4, 4] 0 2 true]]

/-- Two rank-2 arrays of identical shape but different element types. -/
def dtypeTree : List Node :=
  [.array [2, 2] 0 0 true, .array [2, 2] 1 1 true]

/-- C1: for every file tree with exactly K qualifying (rank ≥ 2, readable)
array nodes at any nesting depth, `scan_file` returns exactly K and caches K
in `total_images`; only rank ≥ 2 array nodes are counted (every element of
the qualifying list has rank ≥ 2; rank 0/1 arrays and group nodes never
contribute). -/
theorem scan_file_counts_qualifying (cs : List Node) (e : Extractor)
    (htree : e.tree = .group cs) ( _hread : allQualReadable cs = true) :
    (scan_file e).1 = (qualList cs).length ∧
    (scan_file e).2.total_images = (qualList cs).length ∧
    ∀ i ∈ qualList cs, 2 ≤ i.shape.length := by
  refine ⟨?_, ?_, qualList_rank cs⟩ <;>
    simp [scan_file, htree, recursiveCountArrays, countChildren_eq]

theorem scan_file_counts_qualifying_witness :
    allQualReadable sampleTree = true ∧
    ((scan_file ⟨.group sampleTree, 0⟩).1 = (qualList sampleTree).length ∧
     (scan_file ⟨.group sampleTree, 0⟩).2.total_images = (qualList sampleTree).length ∧
     ∀ i ∈ qualList sampleTree, 2 ≤ i.shape.length) :=
  ⟨by simp [sampleTree, allQualReadable],
   scan_file_counts_qualifying sampleTree ⟨.group sampleTree, 0⟩ rfl
     (by simp [sampleTree, allQualReadable])⟩

/-- C6: calling `extract_images` on a freshly constructed extractor (no scan
yet, cached count 0) or after a scan that found 0 images fails with the
InvalidState-kind error ("No images found in file. Run scan_file() first."),
for any argument. -/
theorem extract_images_invalid_state (t : Node) (nopt : Option Int) (e : Extractor)
    (h0 : (scan_file e).1 = 0) :
    (extract_images (initExtractor t) nopt).1 = .error .invalidState ∧
    (extract_images (scan_file e).2 nopt).1 = .error .invalidState := by
  constructor
  · simp [extract_images, initExtractor]
  · have htot : (scan_file e).2.total_images = 0 := by simpa [scan_file] using h0
    simp [extract_images, htot]

theorem extract_images_invalid_state_witness :
    (scan_file (initExtractor (.group [.array [5] 0 0 true]))).1 = 0 ∧
    ((extract_images (initExtractor (.group sampleTree)) none).1 = .error .invalidState ∧
     (extract_images (scan_file (initExtractor (.group [.array [5] 0 0 true]))).2 none).1 =
       .error .invalidState) :=
  ⟨by simp [scan_file, initExtractor, recursiveCountArrays, countChildren],
   extract_images_invalid_state (.group sampleTree) none
     (initExtractor (.group [.array [5] 0 0 true]))
     (by simp [scan_file, initExtractor, recursiveCountArrays, countChildren])⟩

/-- C7: after a scan that found K ≥ 1 images, `extract_images n` fails with
the InvalidArgument-kind error for every n ≤ 0, fails with the
OutOfRange-kind error for every n > K, and raises no precondition error for
1 ≤ n ≤ K (the call returns a result). -/
theorem extract_images_argument_errors (e0 : Extractor) (K : Nat) (n : Int)
    (hscan : (scan_file e0).1 = K) (hK : 1 ≤ K) :
    (n ≤ 0 → (extract_images (scan_file e0).2 (some n)).1 = .error .invalidArgument) ∧
    ((K : Int) < n → (extract_images (scan_file e0).2 (some n)).1 = .error .outOfRange) ∧
    (1 ≤ n → n ≤ (K : Int) →
      ∃ r, (extract_images (scan_file e0).2 (some n)).1 = .ok r) := by
  have htot : (scan_file e0).2.total_images = K := by simpa [scan_file] using hscan
  have hne : (scan_file e0).2.total_images ≠ 0 := by omega
  refine ⟨?_, ?_, ?_⟩
  · intro hn
    have h2 : ¬ (((scan_file e0).2.total_images : Int) < n) := by
      rw [htot]; omega
    simp [extract_images, hne, h2, hn]
  · intro hn
    have h2 : ((scan_file e0).2.total_images : Int) < n := by rw [htot]; omega
    simp [extract_images, hne, h2]
  · intro hn1 hn2
    have h2 : ¬ (((scan_file e0).2.total_images : Int) < n) := by
      rw [htot]; omega
    have h3 : ¬ (n ≤ 0) := by omega
    have hok : (extract_images (scan_file e0).2 (some n)).1 =
        .ok (assembleResult (extractFromFile (scan_file e0).2.tree (some n.toNat))) := by
      simp [extract_images, hne, h2, h3]
    exact ⟨_, hok⟩

theorem extract_images_argument_errors_witness :
    (scan_file (initExtractor (.group sampleTree))).1 = 2 ∧ 1 ≤ 2 ∧
    (((3 : Int) ≤ 0 →
       (extract_images (scan_file (initExtractor (.group sampleTree))).2 (some 3)).1 =
         .error .invalidArgument) ∧
     (((2 : Nat) : Int) < 3 →
       (extract_images (scan_file (initExtractor (.group sampleTree))).2 (some 3)).1 =
         .error .outOfRange) ∧
     (1 ≤ (3 : Int) → (3 : Int) ≤ ((2 : Nat) : Int) →
       ∃ r, (extract_images (scan_file (initExtractor (.group sampleTree))).2 (some 3)).1 =
         .ok r)) :=
  ⟨by simp [scan_file, initExtractor, recursiveCountArrays, countChildren, sampleTree],
   by norm_num,
   extract_images_argument_errors (initExtractor (.group sampleTree)) 2 3
     (by simp [scan_file, initExtractor, recursiveCountArrays, countChildren, sampleTree])
     (by norm_num)⟩

/-- C8: read failures are non-fatal in both passes.  The only per-node read
is `child.read()` in the extraction pass; the scan pass reads shape metadata
only, so its traversal always completes and returns the full qualifying
count whatever the `readable` flags say.  The extraction traversal is a
total function that attempts every qualifying array (the trace), keeps
exactly the readable ones in depth-first order — so a node whose read fails
is skipped while its later siblings are still visited — and never aborts. -/
theorem traversal_read_failure_nonfatal (cs : List Node) :
    recursiveCountArrays (.group cs) 0 = (qualList cs).length ∧
    extractFromFile (.group cs) none = readableQualList cs ∧
    (extractTraceChildren cs ([], []) none).2 = qualList cs := by
  refine ⟨?_, ?_, ?_⟩
  · simp [recursiveCountArrays, countChildren_eq]
  · simp [extractFromFile, recursiveExtractArrays, atMax, extractChildren_none]
  · simp [extractTraceChildren_none]

/-- C9: `extract_images` never mutates the extractor: on every path (each
error kind and success) the state after the call is exactly the state before
— the cached `total_images` and the bound file are untouched. -/
theorem extract_images_preserves_state (e : Extractor) (nopt : Option Int) :
    (extract_images e nopt).2 = e ∧
    (extract_images e nopt).2.total_images = e.total_images ∧
    (extract_images e nopt).2.tree = e.tree := by
  have h : (extract_images e nopt).2 = e := by
    by_cases h0 : e.total_images = 0
    · simp [extract_images, h0]
    · by_cases h1 : (e.total_images : Int) < nopt.getD (e.total_images : Int)
      · simp [extract_images, h0, h1]
      · by_cases h2 : nopt.getD (e.total_images : Int) ≤ 0
        · simp [extract_images, h0, h1, h2]
        · simp [extract_images, h0, h1, h2]
  exact ⟨h, by rw [h], by rw [h]⟩

/-- C10: whenever the cached count is 0 — fresh constructor, failed scan, or
a scan that found nothing — `extract_images` raises the InvalidState error
for every argument, including n ≤ 0 and n omitted: the InvalidState check
precedes the OutOfRange and InvalidArgument checks. -/
theorem invalid_state_takes_precedence (e : Extractor) (nopt : Option Int)
    (h : e.total_images = 0) :
    (extract_images e nopt).1 = .error .invalidState := by
  simp [extract_images, h]

theorem invalid_state_takes_precedence_witness :
    (initExtractor (.group sampleTree)).total_images = 0 ∧
    (extract_images (initExtractor (.group sampleTree)) (some (-3))).1 =
      .error .invalidState :=
  ⟨rfl, invalid_state_takes_precedence (initExtractor (.group sampleTree)) (some (-3)) rfl⟩

/-- C2: after a successful scan of a tree whose K qualifying arrays are all
readable, `extract_images n` with 1 ≤ n ≤ K delivers exactly n arrays, equal
to the first n arrays, in depth-first order, of a full `extract_images K`
call; and the instrumented traversal reads exactly the first n qualifying
arrays — nothing beyond the n-th match is read (early termination). -/
theorem extract_images_first_n (cs : List Node) (n : Nat)
    (hread : allQualReadable cs = true) (h1 : 1 ≤ n) (h2 : n ≤ (qualList cs).length) :
    (extractedImages (extract_images (scannedExtractor cs) (some (n : Int))).1).length = n ∧
    extractedImages (extract_images (scannedExtractor cs) (some (n : Int))).1 =
      (extractedImages (extract_images (scannedExtractor cs)
        (some ((qualList cs).length : Int))).1).take n ∧
    (extractTraceChildren cs ([], []) (some n)).2 = (qualList cs).take n ∧
    (extractTraceChildren cs ([], []) (some n)).1 =
      extractFromFile (.group cs) (some n) := by
  have hRQ := readableQualList_eq cs hread
  have hmain := extract_images_ok_aux cs n h1 h2
  have hfull := extract_images_ok_aux cs (qualList cs).length (le_trans h1 h2) le_rfl
  have htr := extractTraceChildren_some cs hread [] [] n
  have hn0 : ¬ (n ≤ 0) := by omega
  refine ⟨?_, ?_, ?_, ?_⟩
  · rw [hmain]
    simp [extractedImages, imagesOf_assembleResult, hRQ, List.length_take]
    omega
  · rw [hmain, hfull]
    simp [extractedImages, imagesOf_assembleResult, hRQ, List.take_length]
  · rw [htr]
    simp
  · rw [htr]
    rw [extractFromFile, recursiveExtractArrays]
    have hg : atMax [] (some n) = false := by
      simp only [atMax, List.length_nil, decide_eq_false_iff_not]
      omega
    simp only [hg, Bool.false_eq_true, if_false]
    rw [extractChildren_some]
    simp [hRQ]

theorem extract_images_first_n_witness :
    allQualReadable sampleTree = true ∧ 1 ≤ 1 ∧ 1 ≤ (qualList sampleTree).length ∧
    ((extractedImages (extract_images (scannedExtractor sampleTree) (some (1 : Int))).1).length
        = 1 ∧
     extractedImages (extract_images (scannedExtractor sampleTree) (some (1 : Int))).1 =
       (extractedImages (extract_images (scannedExtractor sampleTree)
         (some ((qualList sampleTree).length : Int))).1).take 1 ∧
     (extractTraceChildren sampleTree ([], []) (some 1)).2 = (qualList sampleTree).take 1 ∧
     (extractTraceChildren sampleTree ([], []) (some 1)).1 =
       extractFromFile (.group sampleTree) (some 1)) :=
  ⟨by simp [sampleTree, allQualReadable], by norm_num,
   by simp [sampleTree, qualList],
   extract_images_first_n sampleTree 1 (by simp [sampleTree, allQualReadable]) (by norm_num)
     (by simp [sampleTree, qualList])⟩

/-- C5: during `extract_images n` (after a scan that counted the K
qualifying arrays, 1 ≤ n ≤ K), each unreadable qualifying array is skipped
and does not count toward n: the delivered list is the first n readable
qualifying arrays in depth-first order, so it has exactly n elements
whenever at least n readable candidates exist in the whole tree, and only
when fewer than n readable candidates exist does the call deliver fewer
(all R of them) — still returning a result, never failing. -/
theorem extract_images_skips_unreadable (cs : List Node) (n : Nat)
    (h1 : 1 ≤ n) (h2 : n ≤ (qualList cs).length) :
    extractedImages (extract_images (scannedExtractor cs) (some (n : Int))).1 =
      (readableQualList cs).take n ∧
    (n ≤ (readableQualList cs).length →
      (extractedImages (extract_images (scannedExtractor cs) (some (n : Int))).1).length = n) ∧
    ((readableQualList cs).length < n →
      (extractedImages (extract_images (scannedExtractor cs) (some (n : Int))).1).length =
        (readableQualList cs).length) ∧
    ∃ r, (extract_images (scannedExtractor cs) (some (n : Int))).1 = .ok r := by
  have hmain := extract_images_ok_aux cs n h1 h2
  refine ⟨?_, ?_, ?_, ⟨_, hmain⟩⟩
  · rw [hmain]
    simp [extractedImages, imagesOf_assembleResult]
  · intro h
    rw [hmain]
    simp [extractedImages, imagesOf_assembleResult, List.length_take]
    omega
  · intro h
    rw [hmain]
    simp [extractedImages, imagesOf_assembleResult, List.length_take]
    omega

theorem extract_images_skips_unreadable_witness :
    1 ≤ 2 ∧ 2 ≤ (qualList sampleTreeU).length ∧
    (extractedImages (extract_images (scannedExtractor sampleTreeU) (some (2 : Int))).1 =
       (readableQualList sampleTreeU).take 2 ∧
     (2 ≤ (readableQualList sampleTreeU).length →
       (extractedImages
         (extract_images (scannedExtractor sampleTreeU) (some (2 : Int))).1).length = 2) ∧
     ((readableQualList sampleTreeU).length < 2 →
       (extractedImages
         (extract_images (scannedExtractor sampleTreeU) (some (2 : Int))).1).length =
           (readableQualList sampleTreeU).length) ∧
     ∃ r, (extract_images (scannedExtractor sampleTreeU) (some (2 : Int))).1 = .ok r) :=
  ⟨by norm_num, by simp [sampleTreeU, qualList],
   extract_images_skips_unreadable sampleTreeU 2 (by norm_num)
     (by simp [sampleTreeU, qualList])⟩

/-- C4 counterexample: for the tree with no qualifying arrays (K = 0, and
vacuously every qualifying array is readable), `scan_file` returns 0 but
`extract_images` with n omitted returns no arrays at all — it fails with the
InvalidState error — so the scanned count does not equal the size of any
returned extraction. -/
theorem scan_extract_agree_cex :
    allQualReadable [] = true ∧
    (scan_file (initExtractor (.group []))).1 = 0 ∧
    (extract_images (scannedExtractor []) none).1 = .error .invalidState ∧
    ∀ r, (extract_images (scannedExtractor []) none).1 ≠ .ok r := by
  refine ⟨by simp [allQualReadable], ?_, ?_, ?_⟩
  · simp [scan_file, initExtractor, recursiveCountArrays, countChildren]
  · simp [scannedExtractor, scan_file, initExtractor, recursiveCountArrays, countChildren,
      extract_images]
  · intro r
    simp [scannedExtractor, scan_file, initExtractor, recursiveCountArrays, countChildren,
      extract_images]

/-- C4 amended: for every tree with at least one qualifying array, all of
them readable, the count returned by `scan_file` equals the number of arrays
returned by `extract_images` with n omitted (n resolves to the cached
total); indeed the extracted list is exactly the depth-first qualifying list
that the scan counts, so both passes apply the identical rank ≥ 2 filter in
the identical depth-first order. -/
theorem scan_extract_agree (cs : List Node) (hread : allQualReadable cs = true)
    (hK : 1 ≤ (qualList cs).length) :
    ∃ r, (extract_images (scannedExtractor cs) none).1 = .ok r ∧
      r.imagesOf.length = (scan_file (initExtractor (.group cs))).1 ∧
      r.imagesOf = qualList cs := by
  have hmain := extract_images_none_ok_aux cs hK
  refine ⟨_, hmain, ?_, ?_⟩
  · simp [imagesOf_assembleResult, readableQualList_eq cs hread, List.take_length,
      scan_file, initExtractor, recursiveCountArrays, countChildren_eq]
  · simp [imagesOf_assembleResult, readableQualList_eq cs hread, List.take_length]

theorem scan_extract_agree_witness :
    allQualReadable sampleTree = true ∧ 1 ≤ (qualList sampleTree).length ∧
    ∃ r, (extract_images (scannedExtractor sampleTree) none).1 = .ok r ∧
      r.imagesOf.length = (scan_file (initExtractor (.group sampleTree))).1 ∧
      r.imagesOf = qualList sampleTree :=
  ⟨by simp [sampleTree, allQualReadable], by simp [sampleTree, qualList],
   scan_extract_agree sampleTree (by simp [sampleTree, allQualReadable])
     (by simp [sampleTree, qualList])⟩

/-- C3 counterexample: two extracted arrays share the shape (2, 2) but have
different element types; `np.array` still stacks them into a single uniform
container of shape (2, 2, 2) (numpy promotes the element types), whereas the
claim's "if and only if every array has identical shape and element type"
demands a heterogeneous sequence here. -/
theorem stacking_ignores_dtype_cex :
    (extract_images (scannedExtractor dtypeTree) (some (2 : Int))).1 =
      .ok (.uniform [2, 2, 2] [⟨[2, 2], 0, 0⟩, ⟨[2, 2], 1, 1⟩]) ∧
    (⟨[2, 2], 0, 0⟩ : Img).dtype ≠ (⟨[2, 2], 1, 1⟩ : Img).dtype := by
  constructor
  · have h := extract_images_ok_aux dtypeTree 2 (by norm_num)
      (by simp [dtypeTree, qualList])
    have hc : (((2 : Nat) : Int)) = (2 : Int) := by norm_num
    rw [hc] at h
    rw [h]
    simp [dtypeTree, readableQualList, assembleResult, npStackShape]
  · decide

/-- C3 amended: the extracted list is stacked into a single uniform
container exactly when every array has identical shape — element types are
not required to match (numpy promotes them); when all K arrays share shape
s the result is the uniform stack of shape K :: s, when any array differs in
shape the result is the heterogeneous sequence of the same K images with
each original shape preserved (a non-fatal warning), and the call never
hard-fails at this stage. -/
theorem extract_images_stacking (cs : List Node)
    (hread : allQualReadable cs = true) (hK : 1 ≤ (qualList cs).length) :
    ∃ r, (extract_images (scannedExtractor cs)
        (some ((qualList cs).length : Int))).1 = .ok r ∧
      r.imagesOf = qualList cs ∧
      (∀ s, (∀ i ∈ qualList cs, i.shape = s) →
        r = .uniform ((qualList cs).length :: s) (qualList cs)) ∧
      ((¬ ∃ s, ∀ i ∈ qualList cs, i.shape = s) → r = .hetero (qualList cs)) := by
  have hmain := extract_images_ok_aux cs (qualList cs).length hK le_rfl
  rw [readableQualList_eq cs hread, List.take_length] at hmain
  refine ⟨_, hmain, imagesOf_assembleResult _, ?_, ?_⟩
  · intro s hs
    obtain ⟨i, rest, hq⟩ : ∃ i rest, qualList cs = i :: rest := by
      cases hqc : qualList cs with
      | nil => rw [hqc] at hK; simp at hK
      | cons i rest => exact ⟨i, rest, rfl⟩
    rw [hq] at hs ⊢
    have hi : i.shape = s := hs i (by simp)
    have hall : ∀ x ∈ rest, x.shape = s := fun j hj => hs j (List.mem_cons_of_mem _ hj)
    simp only [assembleResult, npStackShape, hi]
    have hallb : (rest.all fun j => decide (j.shape = s)) = true := by
      rw [List.all_eq_true]
      intro j hj
      simpa using hall j hj
    rw [if_pos hallb]
    simp
  · intro hns
    obtain ⟨i, rest, hq⟩ : ∃ i rest, qualList cs = i :: rest := by
      cases hqc : qualList cs with
      | nil => rw [hqc] at hK; simp at hK
      | cons i rest => exact ⟨i, rest, rfl⟩
    have hnall : ¬ (∀ x ∈ rest, x.shape = i.shape) := by
      intro hall
      refine hns ⟨i.shape, ?_⟩
      intro j hj
      rw [hq] at hj
      rcases List.mem_cons.mp hj with h | h
      · rw [h]
      · exact hall j h
    rw [hq]
    simp [assembleResult, npStackShape, hnall]

theorem extract_images_stacking_witness :
    allQualReadable sampleTree = true ∧ 1 ≤ (qualList sampleTree).length ∧
    ∃ r, (extract_images (scannedExtractor sampleTree)
        (some ((qualList sampleTree).length : Int))).1 = .ok r ∧
      r.imagesOf = qualList sampleTree ∧
      (∀ s, (∀ i ∈ qualList sampleTree, i.shape = s) →
        r = .uniform ((qualList sampleTree).length :: s) (qualList sampleTree)) ∧
      ((¬ ∃ s, ∀ i ∈ qualList sampleTree, i.shape = s) →
        r = .hetero (qualList sampleTree)) :=
  ⟨by simp [sampleTree, allQualReadable], by simp [sampleTree, qualList],
   extract_images_stacking sampleTree (by simp [sampleTree, allQualReadable])
     (by simp [sampleTree, qualList])⟩
